import Mathlib

/-!
Verification of the Static Analyzer of the ai-code-reviewer repository
(src/src/ml_analyzer.py) against its natural-language specification.

The analyzer is embedded shallowly:

* Python regular-expression searches are modelled by a small, total
  Brzozowski-derivative matcher over an explicit pattern datatype; each
  pattern of the source is transcribed below next to the original regex.
  Character classes are modelled at ASCII precision: the source compiles
  its patterns without re.UNICODE-specific input in mind, and every text
  analysed in this development is ASCII.
* Python floats are modelled in exact tenths (an Int number of tenths):
  every score the code can produce is a whole number of tenths
  (10.0 minus multiples of 2.0, 1.0 and 0.3) and the code rounds to one
  decimal place, so tenths are exactly the unit of the computation.
  A score of 80 tenths is the Python float 8.0.
* The standard-library parser ast.parse is not part of the repository;
  it is supplied to the embedded analyzer as an explicit argument
  (a function from the text to an optional list of parsed function
  definitions), so every universally quantified theorem below holds for
  every possible parser.  Concrete evaluations use the table astParse,
  which records the observable output of CPython ast.parse on the
  concrete texts analysed here.
-/

set_option maxRecDepth 8000

/-! ## A total regular-expression matcher (Brzozowski derivatives)

Patterns are matched against lists of characters.  cls carries the
characteristic function of a character class.  -/

inductive Regex : Type where
  | emp  : Regex
  | eps  : Regex
  | cls  : (Char → Bool) → Regex
  | cat  : Regex → Regex → Regex
  | alt  : Regex → Regex → Regex
  | star : Regex → Regex

def Regex.nullable : Regex → Bool
  | .emp => false
  | .eps => true
  | .cls _ => false
  | .cat a b => a.nullable && b.nullable
  | .alt a b => a.nullable || b.nullable
  | .star _ => true

/-- Smart concatenation: keeps derivative terms small. -/
def Regex.scat : Regex → Regex → Regex
  | .emp, _ => .emp
  | _, .emp => .emp
  | .eps, b => b
  | a, .eps => a
  | a, b => .cat a b

/-- Smart alternation: keeps derivative terms small. -/
def Regex.salt : Regex → Regex → Regex
  | .emp, b => b
  | a, .emp => a
  | a, b => .alt a b

def Regex.deriv : Regex → Char → Regex
  | .emp, _ => .emp
  | .eps, _ => .emp
  | .cls f, c => if f c then .eps else .emp
  | .cat a b, c =>
      if a.nullable then Regex.salt (Regex.scat (a.deriv c) b) (b.deriv c)
      else Regex.scat (a.deriv c) b
  | .alt a b, c => Regex.salt (a.deriv c) (b.deriv c)
  | .star a, c => Regex.scat (a.deriv c) (.star a)

/-- Whole-list match: the pattern matches the entire character list. -/
def Regex.rmatch (r : Regex) (s : List Char) : Bool :=
  (s.foldl Regex.deriv r).nullable

/-- A class accepting every character (used to pad an unanchored search). -/
def anyStar : Regex := .star (.cls (fun _ => true))

/-- Python re.search with an unanchored pattern: some substring matches. -/
def reSearch (r : Regex) (s : String) : Bool :=
  Regex.rmatch (.cat anyStar (.cat r anyStar)) s.data

/-- Python re.search with a pattern anchored by a leading caret (no
re.MULTILINE): some prefix of the string matches. -/
def reSearchStart (r : Regex) (s : String) : Bool :=
  Regex.rmatch (.cat r anyStar) s.data

/-- Is the character a word character for the word-boundary test
(Python regex word characters, at ASCII precision). -/
def isWordC (c : Char) : Bool := c.isAlphanum || c == '_'

/-- The position after prev is a word boundary, given that the pattern to
the right starts with a word character. -/
def boundaryBefore : Option Char → Bool
  | none => true
  | some c => !isWordC c

def searchWBAux (r : Regex) : Option Char → List Char → Bool
  | p, [] => boundaryBefore p && Regex.rmatch (.cat r anyStar) []
  | p, c :: rest =>
      (boundaryBefore p && Regex.rmatch (.cat r anyStar) (c :: rest))
        || searchWBAux r (some c) rest

/-- Python re.search for a pattern with a leading word-boundary escape
followed by a word character: the match may start at any position whose
preceding character is absent or not a word character. -/
def reSearchWordB (r : Regex) (s : String) : Bool :=
  searchWBAux r none s.data

/-! ## Character classes and pattern builders -/

/-- Python regex whitespace class, at ASCII precision. -/
def isPySpace (c : Char) : Bool :=
  c == ' ' || c == '\t' || c == '\n' || c == '\r' || c == '\x0b' || c == '\x0c'

/-- The alphanumeric class of the api_key pattern. -/
def isAlnumC (c : Char) : Bool := c.isAlphanum

def chrR (c : Char) : Regex := .cls (fun x => x == c)

/-- Case-insensitive single character (re.IGNORECASE, ASCII precision). -/
def ciChr (c : Char) : Regex := .cls (fun x => x.toLower == c.toLower)

def litS (s : String) : Regex := s.data.foldr (fun c r => .cat (chrR c) r) .eps

def litCI (s : String) : Regex := s.data.foldr (fun c r => .cat (ciChr c) r) .eps

def cats (l : List Regex) : Regex := l.foldr .cat .eps

def alts (l : List Regex) : Regex := l.foldr .alt .emp

def spaceStar : Regex := .star (.cls isPySpace)

def spacePlus : Regex := .cat (.cls isPySpace) spaceStar

/-- The dot of a Python pattern: any character but a newline. -/
def dotC : Regex := .cls (fun c => !(c == '\n'))

def dotStar : Regex := .star dotC

def dotPlus : Regex := .cat dotC dotStar

/-- A single or double quote character. -/
def quoteC : Regex := .cls (fun c => c == '\x22' || c == '\x27')

def wordPlus : Regex := .cat (.cls isWordC) (.star (.cls isWordC))

def repR (r : Regex) : Nat → Regex
  | 0 => .eps
  | n + 1 => .cat r (repR r n)

/-! ## The twelve line patterns of ml_analyzer.py -/

/-- Pattern of line 61 with re.IGNORECASE:
a quoted literal assigned to a password-like name. -/
def pwPat : Regex :=
  cats [litCI "password", spaceStar, chrR '=', spaceStar, quoteC, dotPlus, quoteC]

/-- Pattern of line 71: an execute call whose string literal argument
holds a percent-s placeholder. -/
def sqlPat : Regex :=
  cats [litS "execute", spaceStar, chrR '(', spaceStar, quoteC, dotStar,
    litS "%s", dotStar, quoteC]

/-- Pattern of line 81 with re.IGNORECASE: a quoted literal of at least 20
alphanumeric characters assigned to an api_key-like name. -/
def apiPat : Regex :=
  cats [litCI "api_key", spaceStar, chrR '=', spaceStar, quoteC,
    repR (.cls isAlnumC) 20, .star (.cls isAlnumC), quoteC]

/-- Pattern of line 91 after its leading word boundary: the name eval
followed by an opening parenthesis. -/
def evalCallPat : Regex := cats [litS "eval", spaceStar, chrR '(']

/-- Pattern of line 122, anchored: an optionally indented print call at
the start of the line. -/
def printPat : Regex := cats [spaceStar, litS "print", spaceStar, chrR '(']

/-- Pattern of line 132 with re.IGNORECASE: a comment token followed by a
marker word. -/
def todoPat : Regex :=
  cats [chrR '#', spaceStar,
    alts [litCI "TODO", litCI "FIXME", litCI "HACK", litCI "XXX"]]

/-- Pattern of line 170: an except keyword directly followed by a colon. -/
def exceptPat : Regex := cats [litS "except", spaceStar, chrR ':']

/-- Pattern of line 180: a function signature giving a parameter a literal
empty list or empty dict as default. -/
def mutPat : Regex :=
  cats [litS "def", spacePlus, wordPlus, spaceStar, chrR '(', dotStar,
    chrR '=', spaceStar, .alt (litS "[]") (litS "\x7b\x7d")]

/-- Pattern of line 190: equality comparison against None. -/
def nonePat : Regex := cats [litS "==", spaceStar, litS "None"]

/-- Pattern of line 214, anchored: a for or while loop header. -/
def loopPat : Regex :=
  cats [spaceStar, .alt (litS "for") (litS "while"), spacePlus]

/-- Pattern of line 219: a data-access method call. -/
def dbPat : Regex :=
  cats [chrR '.',
    alts [litS "find", litS "query", litS "execute", litS "select", litS "get"],
    spaceStar, chrR '(']

/-- Pattern of line 229: a compound string-append assignment. -/
def concatPat : Regex := cats [litS "+=", spaceStar, quoteC]

/-! ## Data model (CodeIssue of ml_analyzer.py) -/

structure CodeIssue where
  severity : String
  issue_type : String
  description : String
  line_number : Nat
  suggestion : String
deriving DecidableEq, Repr

/-- The issue of lines 62 to 68. -/
def pwIssue (i : Nat) : CodeIssue :=
  { severity := "CRITICAL"
    issue_type := "Hardcoded Password"
    description := "Hardcoded password found on line " ++ toString i
    line_number := i
    suggestion := "Use environment variables: os.getenv(\x27PASSWORD\x27)" }

/-- The issue of lines 72 to 78. -/
def sqlIssue (i : Nat) : CodeIssue :=
  { severity := "CRITICAL"
    issue_type := "SQL Injection Risk"
    description := "Direct string formatting in SQL query on line " ++ toString i
    line_number := i
    suggestion := "Use parameterized queries: cursor.execute(sql, (params,))" }

/-- The issue of lines 82 to 88. -/
def apiIssue (i : Nat) : CodeIssue :=
  { severity := "CRITICAL"
    issue_type := "Exposed API Key"
    description := "Hardcoded API key found on line " ++ toString i
    line_number := i
    suggestion := "Use environment variables: os.getenv(\x27API_KEY\x27)" }

/-- The issue of lines 92 to 98. -/
def evalIssue (i : Nat) : CodeIssue :=
  { severity := "CRITICAL"
    issue_type := "Dangerous eval() Usage"
    description :=
      "eval() is dangerous and can execute malicious code — line " ++ toString i
    line_number := i
    suggestion := "Avoid eval(). Use ast.literal_eval() for safe evaluation" }

/-- The issue of lines 113 to 119 (n is the length of the line). -/
def longIssue (i n : Nat) : CodeIssue :=
  { severity := "INFO"
    issue_type := "Long Line"
    description :=
      "Line " ++ toString i ++ " is " ++ toString n
        ++ " characters (recommended max: 120)"
    line_number := i
    suggestion := "Break long lines for better readability" }

/-- The issue of lines 123 to 129. -/
def printIssue (i : Nat) : CodeIssue :=
  { severity := "INFO"
    issue_type := "Print Statement Found"
    description := "print() found on line " ++ toString i ++ " — use logging instead"
    line_number := i
    suggestion := "Replace with: import logging → logging.info(\x27message\x27)" }

/-- The issue of lines 133 to 139. -/
def todoIssue (i : Nat) : CodeIssue :=
  { severity := "WARNING"
    issue_type := "Unresolved TODO"
    description := "Unresolved TODO/FIXME comment on line " ++ toString i
    line_number := i
    suggestion := "Resolve this before merging to main branch" }

/-- The issue of lines 148 to 154. -/
def docIssue (nm : String) (i : Nat) : CodeIssue :=
  { severity := "INFO"
    issue_type := "Missing Docstring"
    description := "Function \x27" ++ nm ++ "\x27 has no docstring"
    line_number := i
    suggestion :=
      "Add docstring: def " ++ nm ++ "():\n    \x22\x22\x22What this function does\x22\x22\x22" }

/-- The issue of lines 171 to 177. -/
def exceptIssue (i : Nat) : CodeIssue :=
  { severity := "WARNING"
    issue_type := "Bare Except Clause"
    description := "Catching ALL exceptions is bad practice — line " ++ toString i
    line_number := i
    suggestion := "Specify exception: except ValueError: or except Exception as e:" }

/-- The issue of lines 181 to 187. -/
def mutIssue (i : Nat) : CodeIssue :=
  { severity := "WARNING"
    issue_type := "Mutable Default Argument"
    description := "Using mutable default argument on line " ++ toString i ++ " causes bugs"
    line_number := i
    suggestion := "Use None as default: def func(items=None): items = items or []" }

/-- The issue of lines 191 to 197. -/
def noneIssue (i : Nat) : CodeIssue :=
  { severity := "INFO"
    issue_type := "Incorrect None Comparison"
    description :=
      "Use \x27is None\x27 instead of \x27== None\x27 on line " ++ toString i
    line_number := i
    suggestion := "Replace \x27== None\x27 with \x27is None\x27" }

/-- The issue of lines 220 to 226. -/
def dbIssue (i : Nat) : CodeIssue :=
  { severity := "WARNING"
    issue_type := "Database Query in Loop"
    description :=
      "DB query inside loop on line " ++ toString i ++ " — causes N+1 problem!"
    line_number := i
    suggestion := "Move query outside loop, fetch all data at once" }

/-- The issue of lines 230 to 236. -/
def concatIssue (i : Nat) : CodeIssue :=
  { severity := "INFO"
    issue_type := "String Concat in Loop"
    description := "String concatenation in loop on line " ++ toString i ++ " is slow"
    line_number := i
    suggestion := "Use list.append() then \x27\x27.join() for better performance" }

/-! ## Splitting the text into lines (Python str.split on a newline) -/

def splitLinesAux : List Char → List Char → List String
  | [], acc => [String.mk acc.reverse]
  | c :: cs, acc =>
      if c = '\n' then String.mk acc.reverse :: splitLinesAux cs []
      else splitLinesAux cs (c :: acc)

/-- The line list of code.split applied to a newline, exactly as Python
splits: the empty string yields one empty line, a trailing newline yields a
final empty line, and no separator characters are kept. -/
def splitLines (s : String) : List String := splitLinesAux s.data []

/-! ## The detection passes -/

/-- Run a per-line rule function over the lines, numbering them from i
(the source enumerates lines from 1). -/
def lineGo (f : Nat → String → List CodeIssue) (i : Nat) : List String → List CodeIssue
  | [] => []
  | l :: ls => f i l ++ lineGo f (i + 1) ls

/-- One iteration of the loop of _check_security_issues (lines 58 to 98). -/
def secLine (i : Nat) (l : String) : List CodeIssue :=
  (if reSearch pwPat l = true then [pwIssue i] else [])
    ++ (if reSearch sqlPat l = true then [sqlIssue i] else [])
    ++ (if reSearch apiPat l = true then [apiIssue i] else [])
    ++ (if reSearchWordB evalCallPat l = true then [evalIssue i] else [])

/-- _check_security_issues (lines 54 to 100). -/
def check_security_issues (code : String) : List CodeIssue :=
  lineGo secLine 1 (splitLines code)

/-- One iteration of the line loop of _check_code_quality (lines 109 to 139). -/
def qualLine (i : Nat) (l : String) : List CodeIssue :=
  (if 120 < l.length then [longIssue i l.length] else [])
    ++ (if reSearchStart printPat l = true then [printIssue i] else [])
    ++ (if reSearch todoPat l = true then [todoIssue i] else [])

/-- What the analyzer reads off one ast.FunctionDef node: its name, its
definition line, whether the first statement of its body is an expression
statement whose value is an ast.Constant (the condition of lines 146 to
147), and — recorded for comparison with the specification, which speaks of
string literals — whether that constant is a string literal. -/
structure FnInfo where
  name : String
  lineno : Nat
  firstStmtIsConstExpr : Bool
  firstStmtIsStrExpr : Bool
deriving DecidableEq, Repr

/-- The loop over ast.walk of lines 144 to 154: one Missing Docstring issue
per function definition whose body does not start with a constant
expression statement. -/
def docFromFns : List FnInfo → List CodeIssue
  | [] => []
  | fd :: fds =>
      (if fd.firstStmtIsConstExpr = false then [docIssue fd.name fd.lineno] else [])
        ++ docFromFns fds

/-- Lines 141 to 156: the syntax-aware part of _check_code_quality.  The
parser stands for ast.parse; a parse failure is the except SyntaxError
branch of line 155 and contributes no issues. -/
def docstringIssues (parse : String → Option (List FnInfo)) (code : String) :
    List CodeIssue :=
  match parse code with
  | none => []
  | some fds => docFromFns fds

/-- _check_code_quality (lines 105 to 158): the line loop followed by the
syntax-aware docstring check. -/
def check_code_quality (parse : String → Option (List FnInfo)) (code : String) :
    List CodeIssue :=
  lineGo qualLine 1 (splitLines code) ++ docstringIssues parse code

/-- One iteration of the loop of _check_python_best_practices
(lines 167 to 197). -/
def bpLine (i : Nat) (l : String) : List CodeIssue :=
  (if reSearch exceptPat l = true then [exceptIssue i] else [])
    ++ (if reSearch mutPat l = true then [mutIssue i] else [])
    ++ (if reSearch nonePat l = true then [noneIssue i] else [])

/-- _check_python_best_practices (lines 163 to 199). -/
def check_python_best_practices (code : String) : List CodeIssue :=
  lineGo bpLine 1 (splitLines code)

/-- The two flag-guarded emissions of one iteration of the loop of
_check_performance_issues (lines 219 to 236), with the flag already
updated by the loop-header test of line 214. -/
def perfLine (i : Nat) (fl : Bool) (l : String) : List CodeIssue :=
  (if (fl && reSearch dbPat l) = true then [dbIssue i] else [])
    ++ (if (fl && reSearch concatPat l) = true then [concatIssue i] else [])

/-- The scan of _check_performance_issues (lines 208 to 236): the in_loop
flag is set by a loop header and never cleared.  The loop_lines variable
of the source is assigned but never read and is not modelled. -/
def perfGo (fl : Bool) (i : Nat) : List String → List CodeIssue
  | [] => []
  | l :: ls =>
      let fl' := if reSearchStart loopPat l = true then true else fl
      perfLine i fl' l ++ perfGo fl' (i + 1) ls

/-- _check_performance_issues (lines 204 to 238). -/
def check_performance_issues (code : String) : List CodeIssue :=
  perfGo false 1 (splitLines code)

/-! ## Aggregation and scoring -/

/-- The per-issue deduction of lines 250 to 256, in tenths of a point:
20 tenths per CRITICAL, 10 per WARNING, 3 per INFO. -/
def sevWeight (s : String) : Int :=
  if s == "CRITICAL" then 20 else if s == "WARNING" then 10
  else if s == "INFO" then 3 else 0

/-- _calculate_score (lines 243 to 258), in tenths: 10.0 is 100, the
deductions are folded over the issues in order, and the result is clamped
below at zero.  The round of line 258 to one decimal place is the identity
on a value measured in tenths. -/
def calculate_score (issues : List CodeIssue) : Int :=
  max 0 (issues.foldl (fun b i => b - sevWeight i.severity) 100)

/-- The dictionary returned by analyze (lines 41 to 49). -/
structure AnalysisResult where
  filename : String
  quality_score : Int
  total_issues : Nat
  critical : List CodeIssue
  warnings : List CodeIssue
  info : List CodeIssue
  issues : List CodeIssue
deriving DecidableEq, Repr

/-- The issues list built by analyze (lines 30 to 36): the four passes run
in order and their findings are concatenated. -/
def allIssues (parse : String → Option (List FnInfo)) (code : String) :
    List CodeIssue :=
  check_security_issues code ++ check_code_quality parse code
    ++ check_python_best_practices code ++ check_performance_issues code

/-- MLCodeAnalyzer.analyze (lines 25 to 49). -/
def analyze (parse : String → Option (List FnInfo)) (code : String)
    (filename : String) : AnalysisResult :=
  { filename := filename
    quality_score := calculate_score (allIssues parse code)
    total_issues := (allIssues parse code).length
    critical := (allIssues parse code).filter (fun i => i.severity == "CRITICAL")
    warnings := (allIssues parse code).filter (fun i => i.severity == "WARNING")
    info := (allIssues parse code).filter (fun i => i.severity == "INFO")
    issues := allIssues parse code }

/-! ## The concrete texts analysed in this development -/

def txtC9 : String := "password = \x22admin123\x22"

def txtC10 : String := "# password = \x22x\x22"

def txtC5 : String := "def h():\n    42"

def txtC6 : String := "def f():\n    return 1"

def txtC3orig : String := "def f():\n    return 1\ndef g():\n    return 2"

def txtC3new : String := "def f():\n    return 1\ndef g():\n    return 2\n print("

def txtC4 : String := "def f():\n    try:\n        g()\n    except:\n        pass"

/-- Modelled from the spec: the parser of the syntax-aware pass (section
4.2 of the spec) is Python ast.parse, a standard-library routine whose code
is not part of this repository.  It is modelled as a table giving, for each
concrete text analysed in this development, the observable outcome of
CPython ast.parse: none for a SyntaxError (including IndentationError,
its subclass), and otherwise the list of FunctionDef nodes in ast.walk
order with the data the analyzer reads from them.  In particular
ast.parse of txtC5 succeeds with one function h at line 1 whose body is
the single expression statement 42 — an ast.Constant that is not a string
literal — and ast.parse of txtC3new fails: its last line has an unexpected
indent and an unclosed parenthesis.  Texts outside the table are mapped to
none; every universally quantified theorem below quantifies over the
parser, so nothing depends on this default. -/
def astParse (code : String) : Option (List FnInfo) :=
  if code == "" then some []
  else if code == txtC9 then some []
  else if code == txtC10 then some []
  else if code == txtC5 then some [⟨"h", 1, true, false⟩]
  else if code == txtC6 then some [⟨"f", 1, false, false⟩]
  else if code == txtC3orig then some [⟨"f", 1, false, false⟩, ⟨"g", 3, false, false⟩]
  else if code == txtC3new then none
  else if code == txtC4 then some [⟨"f", 1, false, false⟩]
  else none

/-- The parser that always fails: with it the syntax-aware pass contributes
nothing and analyze runs the text-pattern passes alone (used to state the
amended monotonicity claim, whose counterexample is the syntax-aware
pass). -/
def parseNone : String → Option (List FnInfo) := fun _ => none

/-! ## Notions used by the theorems -/

/-- Sum of the score deductions of a list of issues, in tenths. -/
def wsum (l : List CodeIssue) : Int :=
  (l.map (fun g => sevWeight g.severity)).sum

/-- The severity of every issue the analyzer can emit. -/
def sevOK (g : CodeIssue) : Prop :=
  g.severity = "CRITICAL" ∨ g.severity = "WARNING" ∨ g.severity = "INFO"

/-- Does the character list start with the pattern list. -/
def beginsWith : List Char → List Char → Bool
  | [], _ => true
  | _ :: _, [] => false
  | a :: as, b :: bs => a == b && beginsWith as bs

/-- Does the pattern list occur contiguously inside the character list
(used to state that a description embeds a line number). -/
def hasSub (pat : List Char) : List Char → Bool
  | [] => beginsWith pat []
  | c :: rest => beginsWith pat (c :: rest) || hasSub pat rest

/-- The position of the pass that emitted an issue, in the order the source
concatenates them: security, quality line rules, the syntax-aware docstring
check (it runs inside _check_code_quality, after its line loop), best
practices, performance. -/
def codePassRank (t : String) : Nat :=
  if t == "Hardcoded Password" || t == "SQL Injection Risk"
      || t == "Exposed API Key" || t == "Dangerous eval() Usage" then 0
  else if t == "Long Line" || t == "Print Statement Found"
      || t == "Unresolved TODO" then 1
  else if t == "Missing Docstring" then 2
  else if t == "Bare Except Clause" || t == "Mutable Default Argument"
      || t == "Incorrect None Comparison" then 3
  else 4

/-- Follows the words of claim C4 (and spec section 4.3): security findings,
then quality text-pattern findings, then best-practice findings, then
performance findings, with the Missing Docstring findings of the
syntax-aware pass after all text-pattern pass findings. -/
def specPassRank (t : String) : Nat :=
  if t == "Hardcoded Password" || t == "SQL Injection Risk"
      || t == "Exposed API Key" || t == "Dangerous eval() Usage" then 0
  else if t == "Long Line" || t == "Print Statement Found"
      || t == "Unresolved TODO" then 1
  else if t == "Bare Except Clause" || t == "Mutable Default Argument"
      || t == "Incorrect None Comparison" then 2
  else if t == "Database Query in Loop" || t == "String Concat in Loop" then 3
  else 4

/-- The in_loop flag after scanning a list of lines. -/
def flagAfter (b : Bool) : List String → Bool
  | [] => b
  | l :: ls => flagAfter (if reSearchStart loopPat l = true then true else b) ls

/-! ## Basic lemmas -/

theorem mem_ite_single {α : Type} {c : Prop} [Decidable c] {x g : α}
    (h : g ∈ (if c then [x] else [])) : c ∧ g = x := by
  by_cases hc : c
  · simp [hc] at h
    exact ⟨hc, h⟩
  · simp [hc] at h

theorem ite_single_mem {α : Type} {c : Prop} [Decidable c] {x : α} (hc : c) :
    x ∈ (if c then [x] else []) := by
  simp [hc]

theorem data_append (a b : String) : (a ++ b).data = a.data ++ b.data := rfl

theorem beginsWith_self_append (pat ys : List Char) :
    beginsWith pat (pat ++ ys) = true := by
  induction pat with
  | nil => rfl
  | cons a as ih => simp [beginsWith, ih]

theorem hasSub_of_beginsWith {pat l : List Char} (h : beginsWith pat l = true) :
    hasSub pat l = true := by
  cases l with
  | nil => simpa [hasSub] using h
  | cons c rest => simp [hasSub, h]

theorem hasSub_append_left (pat xs l : List Char) (h : hasSub pat l = true) :
    hasSub pat (xs ++ l) = true := by
  induction xs with
  | nil => simpa using h
  | cons c cs ih => simp [hasSub, ih]

theorem hasSub_right (pat xs : List Char) : hasSub pat (xs ++ pat) = true :=
  hasSub_append_left pat xs pat
    (hasSub_of_beginsWith (by simpa using beginsWith_self_append pat []))

theorem hasSub_mid (pat xs ys : List Char) : hasSub pat (xs ++ (pat ++ ys)) = true :=
  hasSub_append_left pat xs _ (hasSub_of_beginsWith (beginsWith_self_append pat ys))

theorem strHasSub_right (x s : String) : hasSub s.data (x ++ s).data = true := by
  rw [data_append]
  exact hasSub_right _ _

theorem strHasSub_mid (x y s : String) : hasSub s.data (x ++ s ++ y).data = true := by
  rw [data_append, data_append, List.append_assoc]
  exact hasSub_mid _ _ _

theorem wsum_nil : wsum [] = 0 := rfl

theorem wsum_cons (g : CodeIssue) (l : List CodeIssue) :
    wsum (g :: l) = sevWeight g.severity + wsum l := by
  simp [wsum]

theorem wsum_append (a b : List CodeIssue) : wsum (a ++ b) = wsum a + wsum b := by
  simp [wsum]

theorem sevWeight_nonneg (s : String) : 0 ≤ sevWeight s := by
  unfold sevWeight
  split_ifs <;> omega

theorem wsum_nonneg (l : List CodeIssue) : 0 ≤ wsum l := by
  induction l with
  | nil => simp [wsum]
  | cons g t ih => rw [wsum_cons]; have := sevWeight_nonneg g.severity; omega

theorem wsum_ite {c : Prop} [Decidable c] (x : CodeIssue) :
    wsum (if c then [x] else []) = if c then sevWeight x.severity else 0 := by
  split <;> simp [wsum]

theorem foldl_sub_eq (l : List CodeIssue) :
    ∀ a : Int, l.foldl (fun b i => b - sevWeight i.severity) a = a - wsum l := by
  induction l with
  | nil => intro a; simp [wsum]
  | cons x t ih => intro a; rw [List.foldl_cons, ih, wsum_cons]; ring

theorem calculate_score_eq (l : List CodeIssue) :
    calculate_score l = max 0 (100 - wsum l) := by
  unfold calculate_score
  rw [foldl_sub_eq]

/-! ## Structure of the per-line passes -/

theorem lineGo_append (f : Nat → String → List CodeIssue) (xs ys : List String) :
    ∀ i, lineGo f i (xs ++ ys) = lineGo f i xs ++ lineGo f (i + xs.length) ys := by
  induction xs with
  | nil => intro i; simp [lineGo]
  | cons l t ih =>
    intro i
    have h : i + 1 + t.length = i + (t.length + 1) := by omega
    simp only [List.cons_append, lineGo, List.length_cons, List.append_assoc,
      List.append_eq]
    rw [ih (i + 1), h]

theorem mem_secLine {g : CodeIssue} {i : Nat} {l : String} (h : g ∈ secLine i l) :
    g = pwIssue i ∨ g = sqlIssue i ∨ g = apiIssue i ∨ g = evalIssue i := by
  simp only [secLine, List.mem_append] at h
  rcases h with ((h | h) | h) | h
  · exact Or.inl (mem_ite_single h).2
  · exact Or.inr (Or.inl (mem_ite_single h).2)
  · exact Or.inr (Or.inr (Or.inl (mem_ite_single h).2))
  · exact Or.inr (Or.inr (Or.inr (mem_ite_single h).2))

theorem mem_qualLine {g : CodeIssue} {i : Nat} {l : String} (h : g ∈ qualLine i l) :
    g = longIssue i l.length ∨ g = printIssue i ∨ g = todoIssue i := by
  simp only [qualLine, List.mem_append] at h
  rcases h with (h | h) | h
  · exact Or.inl (mem_ite_single h).2
  · exact Or.inr (Or.inl (mem_ite_single h).2)
  · exact Or.inr (Or.inr (mem_ite_single h).2)

theorem mem_bpLine {g : CodeIssue} {i : Nat} {l : String} (h : g ∈ bpLine i l) :
    g = exceptIssue i ∨ g = mutIssue i ∨ g = noneIssue i := by
  simp only [bpLine, List.mem_append] at h
  rcases h with (h | h) | h
  · exact Or.inl (mem_ite_single h).2
  · exact Or.inr (Or.inl (mem_ite_single h).2)
  · exact Or.inr (Or.inr (mem_ite_single h).2)

theorem mem_perfLine {g : CodeIssue} {i : Nat} {fl : Bool} {l : String}
    (h : g ∈ perfLine i fl l) :
    (fl = true ∧ reSearch dbPat l = true ∧ g = dbIssue i)
      ∨ (fl = true ∧ reSearch concatPat l = true ∧ g = concatIssue i) := by
  simp only [perfLine, List.mem_append] at h
  rcases h with h | h
  · obtain ⟨hc, rfl⟩ := mem_ite_single h
    rw [Bool.and_eq_true] at hc
    exact Or.inl ⟨hc.1, hc.2, rfl⟩
  · obtain ⟨hc, rfl⟩ := mem_ite_single h
    rw [Bool.and_eq_true] at hc
    exact Or.inr ⟨hc.1, hc.2, rfl⟩

theorem shape_sec : ∀ (ls : List String) (i : Nat) (g : CodeIssue),
    g ∈ lineGo secLine i ls →
    ∃ j, i ≤ j ∧ j < i + ls.length
      ∧ (g = pwIssue j ∨ g = sqlIssue j ∨ g = apiIssue j ∨ g = evalIssue j) := by
  intro ls
  induction ls with
  | nil => intro i g h; simp [lineGo] at h
  | cons l t ih =>
    intro i g h
    simp only [lineGo, List.mem_append] at h
    rcases h with h | h
    · exact ⟨i, le_refl i, by simp, mem_secLine h⟩
    · obtain ⟨j, hj1, hj2, hc⟩ := ih (i + 1) g h
      exact ⟨j, by omega, by simp; omega, hc⟩

theorem shape_qual : ∀ (ls : List String) (i : Nat) (g : CodeIssue),
    g ∈ lineGo qualLine i ls →
    ∃ j, i ≤ j ∧ j < i + ls.length
      ∧ ((∃ n, g = longIssue j n) ∨ g = printIssue j ∨ g = todoIssue j) := by
  intro ls
  induction ls with
  | nil => intro i g h; simp [lineGo] at h
  | cons l t ih =>
    intro i g h
    simp only [lineGo, List.mem_append] at h
    rcases h with h | h
    · rcases mem_qualLine h with h | h | h
      · exact ⟨i, le_refl i, by simp, Or.inl ⟨l.length, h⟩⟩
      · exact ⟨i, le_refl i, by simp, Or.inr (Or.inl h)⟩
      · exact ⟨i, le_refl i, by simp, Or.inr (Or.inr h)⟩
    · obtain ⟨j, hj1, hj2, hc⟩ := ih (i + 1) g h
      exact ⟨j, by omega, by simp; omega, hc⟩

theorem shape_bp : ∀ (ls : List String) (i : Nat) (g : CodeIssue),
    g ∈ lineGo bpLine i ls →
    ∃ j, i ≤ j ∧ j < i + ls.length
      ∧ (g = exceptIssue j ∨ g = mutIssue j ∨ g = noneIssue j) := by
  intro ls
  induction ls with
  | nil => intro i g h; simp [lineGo] at h
  | cons l t ih =>
    intro i g h
    simp only [lineGo, List.mem_append] at h
    rcases h with h | h
    · exact ⟨i, le_refl i, by simp, mem_bpLine h⟩
    · obtain ⟨j, hj1, hj2, hc⟩ := ih (i + 1) g h
      exact ⟨j, by omega, by simp; omega, hc⟩

theorem shape_perf : ∀ (ls : List String) (fl : Bool) (i : Nat) (g : CodeIssue),
    g ∈ perfGo fl i ls →
    ∃ j, i ≤ j ∧ j < i + ls.length ∧ (g = dbIssue j ∨ g = concatIssue j) := by
  intro ls
  induction ls with
  | nil => intro fl i g h; simp [perfGo] at h
  | cons l t ih =>
    intro fl i g h
    simp only [perfGo, List.mem_append] at h
    rcases h with h | h
    · rcases mem_perfLine h with ⟨_, _, rfl⟩ | ⟨_, _, rfl⟩
      · exact ⟨i, le_refl i, by simp, Or.inl rfl⟩
      · exact ⟨i, le_refl i, by simp, Or.inr rfl⟩
    · obtain ⟨j, hj1, hj2, hc⟩ := ih _ (i + 1) g h
      exact ⟨j, by omega, by simp; omega, hc⟩

theorem shape_doc : ∀ (fds : List FnInfo) (g : CodeIssue), g ∈ docFromFns fds →
    ∃ nm j, g = docIssue nm j := by
  intro fds
  induction fds with
  | nil => intro g h; simp [docFromFns] at h
  | cons fd t ih =>
    intro g h
    simp only [docFromFns, List.mem_append] at h
    rcases h with h | h
    · exact ⟨fd.name, fd.lineno, (mem_ite_single h).2⟩
    · exact ih g h

theorem shape_docstringIssues {parse : String → Option (List FnInfo)}
    {code : String} {g : CodeIssue} (h : g ∈ docstringIssues parse code) :
    ∃ nm j, g = docIssue nm j := by
  unfold docstringIssues at h
  cases hp : parse code with
  | none => rw [hp] at h; simp at h
  | some fds => rw [hp] at h; exact shape_doc fds g h

/-! ## Shifting a pass by one line (rules fire independently of the index) -/

theorem secLine_shift {i : Nat} (j : Nat) {l : String} {g : CodeIssue}
    (h : g ∈ secLine i l) :
    ∃ g', g' ∈ secLine j l ∧ g'.issue_type = g.issue_type ∧ g'.line_number = j := by
  simp only [secLine, List.mem_append] at h
  rcases h with ((h | h) | h) | h
  all_goals obtain ⟨hc, rfl⟩ := mem_ite_single h
  · exact ⟨pwIssue j, by simp [secLine, hc], rfl, rfl⟩
  · exact ⟨sqlIssue j, by simp [secLine, hc], rfl, rfl⟩
  · exact ⟨apiIssue j, by simp [secLine, hc], rfl, rfl⟩
  · exact ⟨evalIssue j, by simp [secLine, hc], rfl, rfl⟩

theorem qualLine_shift {i : Nat} (j : Nat) {l : String} {g : CodeIssue}
    (h : g ∈ qualLine i l) :
    ∃ g', g' ∈ qualLine j l ∧ g'.issue_type = g.issue_type ∧ g'.line_number = j := by
  simp only [qualLine, List.mem_append] at h
  rcases h with (h | h) | h
  all_goals obtain ⟨hc, rfl⟩ := mem_ite_single h
  · exact ⟨longIssue j l.length, by simp [qualLine, hc], rfl, rfl⟩
  · exact ⟨printIssue j, by simp [qualLine, hc], rfl, rfl⟩
  · exact ⟨todoIssue j, by simp [qualLine, hc], rfl, rfl⟩

theorem bpLine_shift {i : Nat} (j : Nat) {l : String} {g : CodeIssue}
    (h : g ∈ bpLine i l) :
    ∃ g', g' ∈ bpLine j l ∧ g'.issue_type = g.issue_type ∧ g'.line_number = j := by
  simp only [bpLine, List.mem_append] at h
  rcases h with (h | h) | h
  all_goals obtain ⟨hc, rfl⟩ := mem_ite_single h
  · exact ⟨exceptIssue j, by simp [bpLine, hc], rfl, rfl⟩
  · exact ⟨mutIssue j, by simp [bpLine, hc], rfl, rfl⟩
  · exact ⟨noneIssue j, by simp [bpLine, hc], rfl, rfl⟩

theorem secLine_at {i : Nat} {l : String} {g : CodeIssue} (h : g ∈ secLine i l) :
    g.line_number = i := by
  rcases mem_secLine h with rfl | rfl | rfl | rfl <;> rfl

theorem qualLine_at {i : Nat} {l : String} {g : CodeIssue} (h : g ∈ qualLine i l) :
    g.line_number = i := by
  rcases mem_qualLine h with rfl | rfl | rfl <;> rfl

theorem bpLine_at {i : Nat} {l : String} {g : CodeIssue} (h : g ∈ bpLine i l) :
    g.line_number = i := by
  rcases mem_bpLine h with rfl | rfl | rfl <;> rfl

theorem lineGo_shift (f : Nat → String → List CodeIssue)
    (hshift : ∀ (i j : Nat) (l : String) (g : CodeIssue), g ∈ f i l →
      ∃ g', g' ∈ f j l ∧ g'.issue_type = g.issue_type ∧ g'.line_number = j)
    (hat : ∀ (i : Nat) (l : String) (g : CodeIssue), g ∈ f i l → g.line_number = i) :
    ∀ (ls : List String) (i : Nat) (g : CodeIssue), g ∈ lineGo f i ls →
      ∃ g', g' ∈ lineGo f (i + 1) ls ∧ g'.issue_type = g.issue_type
        ∧ g'.line_number = g.line_number + 1 := by
  intro ls
  induction ls with
  | nil => intro i g h; simp [lineGo] at h
  | cons l t ih =>
    intro i g h
    simp only [lineGo, List.mem_append] at h
    rcases h with h | h
    · obtain ⟨g', hg', ht, hl⟩ := hshift i (i + 1) l g h
      refine ⟨g', ?_, ht, ?_⟩
      · simp only [lineGo, List.mem_append]
        exact Or.inl hg'
      · rw [hl, hat i l g h]
    · obtain ⟨g', hg', ht, hl⟩ := ih (i + 1) g h
      refine ⟨g', ?_, ht, hl⟩
      simp only [lineGo, List.mem_append]
      exact Or.inr hg'

theorem lineGo_bounds (f : Nat → String → List CodeIssue)
    (hat : ∀ (i : Nat) (l : String) (g : CodeIssue), g ∈ f i l → g.line_number = i) :
    ∀ (ls : List String) (i : Nat) (g : CodeIssue), g ∈ lineGo f i ls →
      i ≤ g.line_number ∧ g.line_number < i + ls.length := by
  intro ls
  induction ls with
  | nil => intro i g h; simp [lineGo] at h
  | cons l t ih =>
    intro i g h
    simp only [lineGo, List.mem_append] at h
    rcases h with h | h
    · rw [hat i l g h]
      simp
    · obtain ⟨h1, h2⟩ := ih (i + 1) g h
      constructor
      · omega
      · simp only [List.length_cons]; omega

/-! ## The performance scan: decomposition, flag monotonicity, shifting -/

theorem perfGo_append (ys : List String) : ∀ (xs : List String) (b : Bool) (i : Nat),
    perfGo b i (xs ++ ys)
      = perfGo b i xs ++ perfGo (flagAfter b xs) (i + xs.length) ys := by
  intro xs
  induction xs with
  | nil => intro b i; simp [perfGo, flagAfter]
  | cons l t ih =>
    intro b i
    have h : i + 1 + t.length = i + (t.length + 1) := by omega
    simp only [List.cons_append, perfGo, flagAfter, List.length_cons, List.append_assoc,
      List.append_eq]
    rw [ih _ (i + 1), h]

theorem flagAfter_mono : ∀ (xs : List String) {b b' : Bool},
    (b = true → b' = true) → flagAfter b xs = true → flagAfter b' xs = true := by
  intro xs
  induction xs with
  | nil => intro b b' hb h; exact hb h
  | cons l t ih =>
    intro b b' hb h
    simp only [flagAfter] at h ⊢
    by_cases hl : reSearchStart loopPat l = true
    · rw [if_pos hl] at h ⊢
      exact h
    · rw [if_neg hl] at h ⊢
      exact ih hb h

theorem perfLine_mem_mono {i : Nat} {l : String} {b b' : Bool}
    (hb : b = true → b' = true) {g : CodeIssue} (h : g ∈ perfLine i b l) :
    g ∈ perfLine i b' l := by
  rcases mem_perfLine h with ⟨h1, h2, rfl⟩ | ⟨h1, h2, rfl⟩ <;>
    simp [perfLine, hb h1, h2]

theorem perfGo_shift : ∀ (ls : List String) {b b' : Bool} (i : Nat) (g : CodeIssue),
    (b = true → b' = true) → g ∈ perfGo b i ls →
    ∃ g', g' ∈ perfGo b' (i + 1) ls ∧ g'.issue_type = g.issue_type
      ∧ g'.line_number = g.line_number + 1 := by
  intro ls
  induction ls with
  | nil => intro b b' i g hb h; simp [perfGo] at h
  | cons l t ih =>
    intro b b' i g hb h
    simp only [perfGo, List.mem_append] at h
    have hflag : (if reSearchStart loopPat l = true then true else b) = true →
        (if reSearchStart loopPat l = true then true else b') = true := by
      by_cases hl : reSearchStart loopPat l = true
      · rw [if_pos hl, if_pos hl]
        exact fun h => h
      · rw [if_neg hl, if_neg hl]
        exact hb
    rcases h with h | h
    · have hline : g.line_number = i := by
        rcases mem_perfLine h with ⟨_, _, rfl⟩ | ⟨_, _, rfl⟩ <;> rfl
      rcases mem_perfLine h with ⟨h1, h2, rfl⟩ | ⟨h1, h2, rfl⟩
      · refine ⟨dbIssue (i + 1), ?_, rfl, rfl⟩
        simp only [perfGo, List.mem_append]
        exact Or.inl (by simp [perfLine, hflag h1, h2])
      · refine ⟨concatIssue (i + 1), ?_, rfl, rfl⟩
        simp only [perfGo, List.mem_append]
        exact Or.inl (by simp [perfLine, hflag h1, h2])
    · obtain ⟨g', hg', ht, hl'⟩ := ih (i + 1) g hflag h
      refine ⟨g', ?_, ht, hl'⟩
      simp only [perfGo, List.mem_append]
      exact Or.inr hg'

theorem perfGo_bounds : ∀ (ls : List String) (fl : Bool) (i : Nat) (g : CodeIssue),
    g ∈ perfGo fl i ls → i ≤ g.line_number ∧ g.line_number < i + ls.length := by
  intro ls fl i g h
  obtain ⟨j, hj1, hj2, hc⟩ := shape_perf ls fl i g h
  rcases hc with rfl | rfl <;> exact ⟨hj1, hj2⟩

/-! ## Weight sums do not depend on line numbers, and grow with the flag -/

theorem wsum_secLine_idx (i j : Nat) (l : String) :
    wsum (secLine i l) = wsum (secLine j l) := by
  simp [secLine, wsum_append, wsum_ite, pwIssue, sqlIssue, apiIssue, evalIssue]

theorem wsum_qualLine_idx (i j : Nat) (l : String) :
    wsum (qualLine i l) = wsum (qualLine j l) := by
  simp [qualLine, wsum_append, wsum_ite, longIssue, printIssue, todoIssue]

theorem wsum_bpLine_idx (i j : Nat) (l : String) :
    wsum (bpLine i l) = wsum (bpLine j l) := by
  simp [bpLine, wsum_append, wsum_ite, exceptIssue, mutIssue, noneIssue]

theorem wsum_lineGo_idx (f : Nat → String → List CodeIssue)
    (hf : ∀ i j l, wsum (f i l) = wsum (f j l)) :
    ∀ (ls : List String) (i j : Nat), wsum (lineGo f i ls) = wsum (lineGo f j ls) := by
  intro ls
  induction ls with
  | nil => intro i j; rfl
  | cons l t ih =>
    intro i j
    simp only [lineGo, wsum_append]
    rw [hf i j l, ih (i + 1) (j + 1)]

theorem wsum_perfLine_idx (i j : Nat) (fl : Bool) (l : String) :
    wsum (perfLine i fl l) = wsum (perfLine j fl l) := by
  simp [perfLine, wsum_append, wsum_ite, dbIssue, concatIssue]

theorem wsum_perfLine_mono (i : Nat) (l : String) {b b' : Bool}
    (hb : b = true → b' = true) :
    wsum (perfLine i b l) ≤ wsum (perfLine i b' l) := by
  cases b with
  | false =>
    have h0 : wsum (perfLine i false l) = 0 := by simp [perfLine, wsum]
    rw [h0]
    have h1 := wsum_nonneg (perfLine i b' l)
    omega
  | true =>
    rw [hb rfl]

theorem wsum_perfGo_idx : ∀ (ls : List String) (fl : Bool) (i j : Nat),
    wsum (perfGo fl i ls) = wsum (perfGo fl j ls) := by
  intro ls
  induction ls with
  | nil => intro fl i j; rfl
  | cons l t ih =>
    intro fl i j
    simp only [perfGo, wsum_append]
    rw [wsum_perfLine_idx i j, ih _ (i + 1) (j + 1)]

theorem wsum_perfGo_mono : ∀ (ls : List String) (i : Nat) {b b' : Bool},
    (b = true → b' = true) → wsum (perfGo b i ls) ≤ wsum (perfGo b' i ls) := by
  intro ls
  induction ls with
  | nil => intro i b b' hb; exact le_refl 0
  | cons l t ih =>
    intro i b b' hb
    simp only [perfGo, wsum_append]
    have hflag : (if reSearchStart loopPat l = true then true else b) = true →
        (if reSearchStart loopPat l = true then true else b') = true := by
      by_cases hl : reSearchStart loopPat l = true
      · rw [if_pos hl, if_pos hl]; exact fun h => h
      · rw [if_neg hl, if_neg hl]; exact hb
    have h1 := wsum_perfLine_mono i l hflag
    have h2 := ih (i + 1) hflag
    omega

/-! ## Severity closure and counting -/

theorem sevOK_allIssues (parse : String → Option (List FnInfo)) (code : String)
    (g : CodeIssue) (h : g ∈ allIssues parse code) : sevOK g := by
  simp only [allIssues, check_security_issues, check_code_quality,
    check_python_best_practices, check_performance_issues, List.mem_append] at h
  rcases h with ((h | (h | h)) | h) | h
  · obtain ⟨j, _, _, hc⟩ := shape_sec _ _ _ h
    rcases hc with rfl | rfl | rfl | rfl <;> exact Or.inl rfl
  · obtain ⟨j, _, _, hc⟩ := shape_qual _ _ _ h
    rcases hc with ⟨n, rfl⟩ | rfl | rfl
    · exact Or.inr (Or.inr rfl)
    · exact Or.inr (Or.inr rfl)
    · exact Or.inr (Or.inl rfl)
  · obtain ⟨nm, j, rfl⟩ := shape_docstringIssues h
    exact Or.inr (Or.inr rfl)
  · obtain ⟨j, _, _, hc⟩ := shape_bp _ _ _ h
    rcases hc with rfl | rfl | rfl
    · exact Or.inr (Or.inl rfl)
    · exact Or.inr (Or.inl rfl)
    · exact Or.inr (Or.inr rfl)
  · obtain ⟨j, _, _, hc⟩ := shape_perf _ _ _ _ h
    rcases hc with rfl | rfl
    · exact Or.inr (Or.inl rfl)
    · exact Or.inr (Or.inr rfl)

theorem count_partition (l : List CodeIssue) (h : ∀ g ∈ l, sevOK g) :
    l.length = (l.filter (fun g => g.severity == "CRITICAL")).length
      + (l.filter (fun g => g.severity == "WARNING")).length
      + (l.filter (fun g => g.severity == "INFO")).length := by
  induction l with
  | nil => simp
  | cons x t ih =>
    have hx := h x (by simp)
    have ht : ∀ g ∈ t, sevOK g := fun g hg => h g (by simp [hg])
    have ihe := ih ht
    rcases hx with hc | hw | hi
    · simp [List.filter_cons, hc, ihe]
      omega
    · simp [List.filter_cons, hw, ihe]
      omega
    · simp [List.filter_cons, hi, ihe]
      omega

theorem wsum_counts (l : List CodeIssue) :
    wsum l = 20 * ((l.filter (fun g => g.severity == "CRITICAL")).length : Int)
      + 10 * ((l.filter (fun g => g.severity == "WARNING")).length : Int)
      + 3 * ((l.filter (fun g => g.severity == "INFO")).length : Int) := by
  induction l with
  | nil => simp [wsum]
  | cons x t ih =>
    rw [wsum_cons, ih]
    have swc : sevWeight "CRITICAL" = 20 := rfl
    have sww : sevWeight "WARNING" = 10 := rfl
    have swi : sevWeight "INFO" = 3 := rfl
    by_cases hc : x.severity = "CRITICAL"
    · simp [List.filter_cons, hc, swc]
      ring
    · by_cases hw : x.severity = "WARNING"
      · simp [List.filter_cons, hw, sww]
        ring
      · by_cases hi : x.severity = "INFO"
        · simp [List.filter_cons, hi, swi]
          ring
        · have hs : sevWeight x.severity = 0 := by
            unfold sevWeight
            simp [beq_iff_eq, hc, hw, hi]
          simp [List.filter_cons, hc, hw, hi, hs]

/-! ## Filters, the docstring pass as a filter-map, rank monotonicity -/

theorem filter_eq_nil_of_mem {α : Type} (p : α → Bool) (l : List α)
    (h : ∀ a ∈ l, p a = false) : l.filter p = [] := by
  induction l with
  | nil => rfl
  | cons a t ih =>
    simp [List.filter_cons, h a (by simp), ih (fun a ha => h a (by simp [ha]))]

theorem filter_eq_self_of_mem {α : Type} (p : α → Bool) (l : List α)
    (h : ∀ a ∈ l, p a = true) : l.filter p = l := by
  induction l with
  | nil => rfl
  | cons a t ih =>
    simp [List.filter_cons, h a (by simp), ih (fun a ha => h a (by simp [ha]))]

theorem docFromFns_eq (fds : List FnInfo) :
    docFromFns fds
      = (fds.filter (fun fd => !fd.firstStmtIsConstExpr)).map
          (fun fd => docIssue fd.name fd.lineno) := by
  induction fds with
  | nil => rfl
  | cons fd t ih =>
    rcases Bool.eq_false_or_eq_true fd.firstStmtIsConstExpr with hc | hc
    · simp [docFromFns, List.filter_cons, hc, ih]
    · simp [docFromFns, List.filter_cons, hc, ih]

/-- Is a list of pass ranks weakly increasing. -/
def ranksMono : List Nat → Bool
  | [] => true
  | [_] => true
  | a :: b :: t => decide (a ≤ b) && ranksMono (b :: t)

theorem ranksMono_const : ∀ (l : List Nat) (k : Nat), (∀ a ∈ l, a = k) →
    ranksMono l = true := by
  intro l
  induction l with
  | nil => intro k h; rfl
  | cons a t ih =>
    intro k h
    cases t with
    | nil => rfl
    | cons b t2 =>
      have ha := h a (by simp)
      have hb := h b (by simp)
      have ht : ∀ z ∈ b :: t2, z = k := fun z hz => h z (by simp [List.mem_cons] at hz ⊢; tauto)
      simp only [ranksMono, Bool.and_eq_true]
      exact ⟨by subst ha; subst hb; simp, ih k ht⟩

theorem ranksMono_append : ∀ (l₁ l₂ : List Nat), ranksMono l₁ = true →
    ranksMono l₂ = true → (∀ a ∈ l₁, ∀ b ∈ l₂, a ≤ b) →
    ranksMono (l₁ ++ l₂) = true := by
  intro l₁
  induction l₁ with
  | nil => intro l₂ _ h₂ _; simpa using h₂
  | cons a t ih =>
    intro l₂ h₁ h₂ h
    cases t with
    | nil =>
      cases l₂ with
      | nil => rfl
      | cons b t2 =>
        simp only [List.cons_append, List.nil_append, ranksMono, Bool.and_eq_true]
        exact ⟨by simp [h a (by simp) b (by simp)], h₂⟩
    | cons c t2 =>
      simp only [ranksMono, Bool.and_eq_true] at h₁
      have tail := ih l₂ h₁.2 h₂ (fun z hz b hb => h z (by simp [List.mem_cons] at hz ⊢; tauto) b hb)
      simp only [List.cons_append, ranksMono, Bool.and_eq_true]
      constructor
      · exact h₁.1
      · simpa using tail

theorem codePassRank_le (t : String) : codePassRank t ≤ 4 := by
  unfold codePassRank
  split_ifs <;> omega

theorem rank_sec (code : String) : ∀ g ∈ check_security_issues code,
    codePassRank g.issue_type = 0 := by
  intro g h
  obtain ⟨j, _, _, hc⟩ := shape_sec _ _ _ h
  rcases hc with rfl | rfl | rfl | rfl <;> rfl

theorem rank_qualLines (code : String) : ∀ g ∈ lineGo qualLine 1 (splitLines code),
    codePassRank g.issue_type = 1 := by
  intro g h
  obtain ⟨j, _, _, hc⟩ := shape_qual _ _ _ h
  rcases hc with ⟨n, rfl⟩ | rfl | rfl <;> rfl

theorem rank_doc (parse : String → Option (List FnInfo)) (code : String) :
    ∀ g ∈ docstringIssues parse code, codePassRank g.issue_type = 2 := by
  intro g h
  obtain ⟨nm, j, rfl⟩ := shape_docstringIssues h
  rfl

theorem rank_bp (code : String) : ∀ g ∈ check_python_best_practices code,
    codePassRank g.issue_type = 3 := by
  intro g h
  obtain ⟨j, _, _, hc⟩ := shape_bp _ _ _ h
  rcases hc with rfl | rfl | rfl <;> rfl

theorem rank_perf (code : String) : ∀ g ∈ check_performance_issues code,
    codePassRank g.issue_type = 4 := by
  intro g h
  obtain ⟨j, _, _, hc⟩ := shape_perf _ _ _ _ h
  rcases hc with rfl | rfl <;> rfl

/-! ## Reaching every later line once a loop header was scanned (for C7) -/

theorem perfGo_true_hits : ∀ (ls : List String) (i k : Nat) (y : String),
    ls[k]? = some y →
    (reSearch dbPat y = true → dbIssue (i + k) ∈ perfGo true i ls)
    ∧ (reSearch concatPat y = true → concatIssue (i + k) ∈ perfGo true i ls) := by
  intro ls
  induction ls with
  | nil => intro i k y h; simp at h
  | cons l t ih =>
    intro i k y h
    have hfl : (if reSearchStart loopPat l = true then true else true) = true := by
      split <;> rfl
    cases k with
    | zero =>
      simp only [List.getElem?_cons_zero, Option.some_inj] at h
      subst h
      constructor
      · intro hdb
        simp only [perfGo, hfl, List.mem_append, Nat.add_zero]
        exact Or.inl (by simp [perfLine, hdb])
      · intro hcc
        simp only [perfGo, hfl, List.mem_append, Nat.add_zero]
        exact Or.inl (by simp [perfLine, hcc])
    | succ k2 =>
      have h2 : t[k2]? = some y := by simpa using h
      obtain ⟨ih1, ih2⟩ := ih (i + 1) k2 y h2
      have hidx : i + 1 + k2 = i + (k2 + 1) := by omega
      constructor
      · intro hdb
        simp only [perfGo, hfl, List.mem_append]
        exact Or.inr (by rw [← hidx]; exact ih1 hdb)
      · intro hcc
        simp only [perfGo, hfl, List.mem_append]
        exact Or.inr (by rw [← hidx]; exact ih2 hcc)

theorem perfGo_reach : ∀ (ls : List String) (b : Bool) (i j k : Nat) (x y : String),
    j ≤ k → ls[j]? = some x → ls[k]? = some y →
    reSearchStart loopPat x = true →
    (reSearch dbPat y = true → dbIssue (i + k) ∈ perfGo b i ls)
    ∧ (reSearch concatPat y = true → concatIssue (i + k) ∈ perfGo b i ls) := by
  intro ls
  induction ls with
  | nil => intro b i j k x y hjk hx hy hl; simp at hx
  | cons l t ih =>
    intro b i j k x y hjk hx hy hl
    cases j with
    | zero =>
      simp only [List.getElem?_cons_zero, Option.some_inj] at hx
      subst hx
      have hfl : (if reSearchStart loopPat l = true then true else b) = true := by
        rw [if_pos hl]
      cases k with
      | zero =>
        simp only [List.getElem?_cons_zero, Option.some_inj] at hy
        subst hy
        constructor
        · intro hdb
          simp only [perfGo, hfl, List.mem_append, Nat.add_zero]
          exact Or.inl (by simp [perfLine, hdb])
        · intro hcc
          simp only [perfGo, hfl, List.mem_append, Nat.add_zero]
          exact Or.inl (by simp [perfLine, hcc])
      | succ k2 =>
        have h2 : t[k2]? = some y := by simpa using hy
        obtain ⟨t1, t2⟩ := perfGo_true_hits t (i + 1) k2 y h2
        have hidx : i + 1 + k2 = i + (k2 + 1) := by omega
        constructor
        · intro hdb
          simp only [perfGo, hfl, List.mem_append]
          exact Or.inr (by rw [← hidx]; exact t1 hdb)
        · intro hcc
          simp only [perfGo, hfl, List.mem_append]
          exact Or.inr (by rw [← hidx]; exact t2 hcc)
    | succ j2 =>
      cases k with
      | zero => omega
      | succ k2 =>
        have hx2 : t[j2]? = some x := by simpa using hx
        have hy2 : t[k2]? = some y := by simpa using hy
        obtain ⟨t1, t2⟩ := ih _ (i + 1) j2 k2 x y (by omega) hx2 hy2 hl
        have hidx : i + 1 + k2 = i + (k2 + 1) := by omega
        constructor
        · intro hdb
          simp only [perfGo, List.mem_append]
          exact Or.inr (by rw [← hidx]; exact t1 hdb)
        · intro hcc
          simp only [perfGo, List.mem_append]
          exact Or.inr (by rw [← hidx]; exact t2 hcc)

/-! ## The claims -/

/-- C1: for every input text and name (and every behaviour of the external
parser), analyze terminates and returns a valid AnalysisResult: it is a
total function of this embedding — the one fallible step of the source,
ast.parse, is modelled by the Option-valued parser whose failure branch
(the except SyntaxError of line 155) contributes zero findings — and the
result is internally consistent: the total count is the sum of the three
severity partitions, every finding carries one of the three severities, and
the score lies between 0 and 100 tenths. -/
theorem spec_c1_total_valid (parse : String → Option (List FnInfo))
    (code name : String) :
    (analyze parse code name).total_issues
        = (analyze parse code name).critical.length
          + (analyze parse code name).warnings.length
          + (analyze parse code name).info.length
    ∧ ((analyze parse code name).issues.all
        (fun g => g.severity == "CRITICAL" || g.severity == "WARNING"
          || g.severity == "INFO")) = true
    ∧ 0 ≤ (analyze parse code name).quality_score
    ∧ (analyze parse code name).quality_score ≤ 100 := by
  refine ⟨?_, ?_, ?_, ?_⟩
  · exact count_partition _ (sevOK_allIssues parse code)
  · rw [List.all_eq_true]
    intro g hg
    rcases sevOK_allIssues parse code g hg with h | h | h <;> simp [h]
  · show 0 ≤ calculate_score (allIssues parse code)
    rw [calculate_score_eq]
    exact le_max_left 0 _
  · show calculate_score (allIssues parse code) ≤ 100
    rw [calculate_score_eq]
    have := wsum_nonneg (allIssues parse code)
    exact max_le (by norm_num) (by omega)

/-- C2: for every input text, the score equals
clamp(100 − 20·#CRITICAL − 10·#WARNING − 3·#INFO, min 0) tenths — that is,
clamp(10.0 − 2.0·#CRITICAL − 1.0·#WARNING − 0.3·#INFO, min 0.0) rounded to
one decimal place, which on exact tenths is the identity — and the score
always lies within [0, 100] tenths, never negative. -/
theorem spec_c2_score_formula (parse : String → Option (List FnInfo))
    (code name : String) :
    (analyze parse code name).quality_score
      = max 0 (100 - 20 * ((analyze parse code name).critical.length : Int)
          - 10 * ((analyze parse code name).warnings.length : Int)
          - 3 * ((analyze parse code name).info.length : Int))
    ∧ 0 ≤ (analyze parse code name).quality_score
    ∧ (analyze parse code name).quality_score ≤ 100 := by
  refine ⟨?_, ?_, ?_⟩
  · show calculate_score (allIssues parse code)
      = max 0 (100
          - 20 * (((allIssues parse code).filter
              (fun g => g.severity == "CRITICAL")).length : Int)
          - 10 * (((allIssues parse code).filter
              (fun g => g.severity == "WARNING")).length : Int)
          - 3 * (((allIssues parse code).filter
              (fun g => g.severity == "INFO")).length : Int))
    rw [calculate_score_eq, wsum_counts]
    congr 1
    ring
  · show 0 ≤ calculate_score (allIssues parse code)
    rw [calculate_score_eq]
    exact le_max_left 0 _
  · show calculate_score (allIssues parse code) ≤ 100
    rw [calculate_score_eq]
    have := wsum_nonneg (allIssues parse code)
    exact max_le (by norm_num) (by omega)

/-- C8: whenever no detection rule triggers — the issues list is empty —
the result has total count 0, all three severity sequences empty, and the
score is exactly 100 tenths, that is 10.0. -/
theorem spec_c8_empty (parse : String → Option (List FnInfo)) (code name : String)
    (h : (analyze parse code name).issues = []) :
    (analyze parse code name).total_issues = 0
    ∧ (analyze parse code name).critical = []
    ∧ (analyze parse code name).warnings = []
    ∧ (analyze parse code name).info = []
    ∧ (analyze parse code name).quality_score = 100 := by
  have hall : allIssues parse code = [] := h
  refine ⟨?_, ?_, ?_, ?_, ?_⟩
  · show (allIssues parse code).length = 0
    rw [hall]
    rfl
  · show (allIssues parse code).filter _ = []
    rw [hall]
    rfl
  · show (allIssues parse code).filter _ = []
    rw [hall]
    rfl
  · show (allIssues parse code).filter _ = []
    rw [hall]
    rfl
  · show calculate_score (allIssues parse code) = 100
    rw [hall]
    rfl

/-- C8 witness: the empty text triggers no rule, and analyze on it returns
total count 0, empty partitions and score 100 tenths (10.0). -/
theorem spec_c8_empty_witness :
    (analyze astParse "" "empty.py").issues = []
    ∧ ((analyze astParse "" "empty.py").total_issues = 0
      ∧ (analyze astParse "" "empty.py").critical = []
      ∧ (analyze astParse "" "empty.py").warnings = []
      ∧ (analyze astParse "" "empty.py").info = []
      ∧ (analyze astParse "" "empty.py").quality_score = 100) :=
  ⟨by decide, spec_c8_empty astParse "" "empty.py" (by decide)⟩

/-- C9: the single-line text assigning the quoted literal admin123 to
password yields exactly one finding — a CRITICAL Hardcoded Password at
line 1 — and the score 80 tenths, that is 8.0. -/
theorem spec_c9_password_scenario :
    (analyze astParse txtC9 "creds.py").issues = [pwIssue 1]
    ∧ (pwIssue 1).severity = "CRITICAL"
    ∧ (pwIssue 1).issue_type = "Hardcoded Password"
    ∧ (pwIssue 1).line_number = 1
    ∧ (analyze astParse txtC9 "creds.py").quality_score = 80 := by decide

/-- C10: the detection rules match purely textually: on the single-line
text where the password assignment occurs only inside a comment, analyze
still emits the CRITICAL Hardcoded Password finding at line 1. -/
theorem spec_c10_comment_matches :
    (analyze astParse txtC10 "c.py").issues = [pwIssue 1]
    ∧ (pwIssue 1).severity = "CRITICAL"
    ∧ (pwIssue 1).issue_type = "Hardcoded Password"
    ∧ (pwIssue 1).line_number = 1 := by decide

/-- C5 counterexample: the text defining h whose body is the single
expression statement 42 parses successfully (per the recorded CPython
outcome), its one function's first statement is not a standalone
string-literal expression (the recorded flag is false), and yet analyze
emits no Missing Docstring finding for it: the source checks for any
ast.Constant (lines 146 to 147), and the numeric literal 42 is one, so the
claim as stated — a finding for every function not starting with a string
literal — is false on this input. -/
theorem spec_c5_counterexample :
    astParse txtC5 = some [⟨"h", 1, true, false⟩]
    ∧ ((analyze astParse txtC5 "t.py").issues.filter
        (fun g => g.issue_type == "Missing Docstring")) = [] := by decide

/-- C5 amended: for every parser outcome, the Missing Docstring findings of
analyze are exactly one INFO finding per parsed function definition whose
body's first statement is not a standalone constant-literal expression
(ast.Constant: a string, number, boolean, None or Ellipsis literal — not
only strings), located at that function's definition line with the fix
hint showing the function name; if parsing fails the pass contributes zero
findings and no error. -/
theorem spec_c5_amended_docstring_rule (parse : String → Option (List FnInfo))
    (code name : String) :
    ((analyze parse code name).issues.filter
        (fun g => g.issue_type == "Missing Docstring"))
      = (match parse code with
         | none => []
         | some fds =>
             (fds.filter (fun fd => !fd.firstStmtIsConstExpr)).map
               (fun fd => docIssue fd.name fd.lineno)) := by
  show ((allIssues parse code).filter
      (fun g => g.issue_type == "Missing Docstring")) = _
  have hsec : (check_security_issues code).filter
      (fun g => g.issue_type == "Missing Docstring") = [] := by
    apply filter_eq_nil_of_mem
    intro g hg
    obtain ⟨j, _, _, hc⟩ := shape_sec _ _ _ hg
    rcases hc with rfl | rfl | rfl | rfl <;> rfl
  have hqual : (lineGo qualLine 1 (splitLines code)).filter
      (fun g => g.issue_type == "Missing Docstring") = [] := by
    apply filter_eq_nil_of_mem
    intro g hg
    obtain ⟨j, _, _, hc⟩ := shape_qual _ _ _ hg
    rcases hc with ⟨n, rfl⟩ | rfl | rfl <;> rfl
  have hbp : (check_python_best_practices code).filter
      (fun g => g.issue_type == "Missing Docstring") = [] := by
    apply filter_eq_nil_of_mem
    intro g hg
    obtain ⟨j, _, _, hc⟩ := shape_bp _ _ _ hg
    rcases hc with rfl | rfl | rfl <;> rfl
  have hperf : (check_performance_issues code).filter
      (fun g => g.issue_type == "Missing Docstring") = [] := by
    apply filter_eq_nil_of_mem
    intro g hg
    obtain ⟨j, _, _, hc⟩ := shape_perf _ _ _ _ hg
    rcases hc with rfl | rfl <;> rfl
  have hdoc : (docstringIssues parse code).filter
      (fun g => g.issue_type == "Missing Docstring") = docstringIssues parse code := by
    apply filter_eq_self_of_mem
    intro g hg
    obtain ⟨nm, j, rfl⟩ := shape_docstringIssues hg
    rfl
  unfold allIssues check_code_quality
  rw [List.filter_append, List.filter_append, List.filter_append, List.filter_append,
    hsec, hqual, hbp, hperf, hdoc]
  simp only [List.nil_append, List.append_nil]
  unfold docstringIssues
  cases parse code with
  | none => rfl
  | some fds => exact docFromFns_eq fds

/-- C6 counterexample: on the text defining f without a docstring, analyze
emits exactly one finding, the Missing Docstring INFO at line 1, and its
description — Function f has no docstring — does not embed the triggering
line number 1 as a substring, so the claim that every description embeds
its line number is false. -/
theorem spec_c6_counterexample :
    (analyze astParse txtC6 "t.py").issues = [docIssue "f" 1]
    ∧ (docIssue "f" 1).line_number = 1
    ∧ hasSub (toString (docIssue "f" 1).line_number).data
        (docIssue "f" 1).description.data = false := by decide

theorem numIn_longIssue (j n : Nat) :
    hasSub (toString j).data (longIssue j n).description.data = true := by
  show hasSub (toString j).data
    ("Line " ++ toString j ++ " is " ++ toString n
      ++ " characters (recommended max: 120)").data = true
  rw [data_append, data_append, data_append, data_append,
    List.append_assoc, List.append_assoc, List.append_assoc]
  exact hasSub_mid _ _ _

/-- C6 amended: every finding emitted by analyze embeds its 1-based
triggering line number in its description, except the Missing Docstring
findings of the syntax-aware pass, whose description names the function
instead (see the counterexample). -/
theorem spec_c6_amended_descriptions (parse : String → Option (List FnInfo))
    (code name : String) :
    ((analyze parse code name).issues.all
        (fun g => (g.issue_type == "Missing Docstring")
          || hasSub (toString g.line_number).data g.description.data)) = true := by
  rw [List.all_eq_true]
  intro g hg
  have hg' : g ∈ allIssues parse code := hg
  simp only [allIssues, check_security_issues, check_code_quality,
    check_python_best_practices, check_performance_issues, List.mem_append] at hg'
  rcases hg' with ((h | (h | h)) | h) | h
  · obtain ⟨j, _, _, hc⟩ := shape_sec _ _ _ h
    rcases hc with rfl | rfl | rfl | rfl
    · rw [show (pwIssue j).line_number = j from rfl,
        show (pwIssue j).description
          = "Hardcoded password found on line " ++ toString j from rfl,
        strHasSub_right, Bool.or_true]
    · rw [show (sqlIssue j).line_number = j from rfl,
        show (sqlIssue j).description
          = "Direct string formatting in SQL query on line " ++ toString j from rfl,
        strHasSub_right, Bool.or_true]
    · rw [show (apiIssue j).line_number = j from rfl,
        show (apiIssue j).description
          = "Hardcoded API key found on line " ++ toString j from rfl,
        strHasSub_right, Bool.or_true]
    · rw [show (evalIssue j).line_number = j from rfl,
        show (evalIssue j).description
          = "eval() is dangerous and can execute malicious code — line " ++ toString j
          from rfl,
        strHasSub_right, Bool.or_true]
  · obtain ⟨j, _, _, hc⟩ := shape_qual _ _ _ h
    rcases hc with ⟨n, rfl⟩ | rfl | rfl
    · rw [show (longIssue j n).line_number = j from rfl, numIn_longIssue j n,
        Bool.or_true]
    · rw [show (printIssue j).line_number = j from rfl,
        show (printIssue j).description
          = "print() found on line " ++ toString j ++ " — use logging instead" from rfl,
        strHasSub_mid, Bool.or_true]
    · rw [show (todoIssue j).line_number = j from rfl,
        show (todoIssue j).description
          = "Unresolved TODO/FIXME comment on line " ++ toString j from rfl,
        strHasSub_right, Bool.or_true]
  · obtain ⟨nm, j, rfl⟩ := shape_docstringIssues h
    rw [show (docIssue nm j).issue_type = "Missing Docstring" from rfl,
      show (("Missing Docstring" : String) == "Missing Docstring") = true from rfl,
      Bool.true_or]
  · obtain ⟨j, _, _, hc⟩ := shape_bp _ _ _ h
    rcases hc with rfl | rfl | rfl
    · rw [show (exceptIssue j).line_number = j from rfl,
        show (exceptIssue j).description
          = "Catching ALL exceptions is bad practice — line " ++ toString j from rfl,
        strHasSub_right, Bool.or_true]
    · rw [show (mutIssue j).line_number = j from rfl,
        show (mutIssue j).description
          = "Using mutable default argument on line " ++ toString j ++ " causes bugs"
          from rfl,
        strHasSub_mid, Bool.or_true]
    · rw [show (noneIssue j).line_number = j from rfl,
        show (noneIssue j).description
          = "Use \x27is None\x27 instead of \x27== None\x27 on line " ++ toString j
          from rfl,
        strHasSub_right, Bool.or_true]
  · obtain ⟨j, _, _, hc⟩ := shape_perf _ _ _ _ h
    rcases hc with rfl | rfl
    · rw [show (dbIssue j).line_number = j from rfl,
        show (dbIssue j).description
          = "DB query inside loop on line " ++ toString j ++ " — causes N+1 problem!"
          from rfl,
        strHasSub_mid, Bool.or_true]
    · rw [show (concatIssue j).line_number = j from rfl,
        show (concatIssue j).description
          = "String concatenation in loop on line " ++ toString j ++ " is slow"
          from rfl,
        strHasSub_mid, Bool.or_true]

/-- C4 counterexample: on the text whose function f has no docstring and
whose line 4 is a bare except, analyze returns the Missing Docstring
finding (syntax-aware pass) before the Bare Except Clause finding
(best-practice pass): the claimed pass order — syntax-aware findings after
all text-pattern findings — would put them the other way around, so the
rank sequence taken in the claimed order is not weakly increasing. -/
theorem spec_c4_counterexample :
    (((analyze astParse txtC4 "t.py").issues).map
        (fun g => specPassRank g.issue_type)) = [4, 2]
    ∧ ranksMono [4, 2] = false := by decide

/-- C4 amended: the concatenated findings list preserves the fixed pass
order of the source: all security findings, then the quality pass — its
text-pattern findings followed immediately by the syntax-aware Missing
Docstring findings, which therefore come before (not after) the
best-practice and performance findings — then all best-practice findings,
then all performance findings; each pass's internal discovery order is the
order of its own concatenation.  Stated as: the pass rank of the findings,
in the source's order, is weakly increasing along the returned list. -/
theorem spec_c4_amended_pass_order (parse : String → Option (List FnInfo))
    (code name : String) :
    ranksMono (((analyze parse code name).issues).map
        (fun g => codePassRank g.issue_type)) = true := by
  show ranksMono ((allIssues parse code).map (fun g => codePassRank g.issue_type)) = true
  unfold allIssues check_code_quality
  rw [List.map_append, List.map_append, List.map_append, List.map_append]
  have hsec : ∀ a ∈ (check_security_issues code).map
      (fun g => codePassRank g.issue_type), a = 0 := by
    intro a ha
    obtain ⟨g, hg, rfl⟩ := List.mem_map.mp ha
    exact rank_sec code g hg
  have hqual : ∀ a ∈ (lineGo qualLine 1 (splitLines code)).map
      (fun g => codePassRank g.issue_type), a = 1 := by
    intro a ha
    obtain ⟨g, hg, rfl⟩ := List.mem_map.mp ha
    exact rank_qualLines code g hg
  have hdoc : ∀ a ∈ (docstringIssues parse code).map
      (fun g => codePassRank g.issue_type), a = 2 := by
    intro a ha
    obtain ⟨g, hg, rfl⟩ := List.mem_map.mp ha
    exact rank_doc parse code g hg
  have hbp : ∀ a ∈ (check_python_best_practices code).map
      (fun g => codePassRank g.issue_type), a = 3 := by
    intro a ha
    obtain ⟨g, hg, rfl⟩ := List.mem_map.mp ha
    exact rank_bp code g hg
  have hperf : ∀ a ∈ (check_performance_issues code).map
      (fun g => codePassRank g.issue_type), a = 4 := by
    intro a ha
    obtain ⟨g, hg, rfl⟩ := List.mem_map.mp ha
    exact rank_perf code g hg
  apply ranksMono_append
  · apply ranksMono_append
    · apply ranksMono_append
      · exact ranksMono_const _ 0 hsec
      · apply ranksMono_append
        · exact ranksMono_const _ 1 hqual
        · exact ranksMono_const _ 2 hdoc
        · intro a ha b hb
          rw [hqual a ha, hdoc b hb]
          omega
      · intro a ha b hb
        rw [hsec a ha]
        rcases List.mem_append.mp hb with hb | hb
        · rw [hqual b hb]; omega
        · rw [hdoc b hb]; omega
    · exact ranksMono_const _ 3 hbp
    · intro a ha b hb
      rw [hbp b hb]
      rcases List.mem_append.mp ha with ha | ha
      · rw [hsec a ha]; omega
      · rcases List.mem_append.mp ha with ha | ha
        · rw [hqual a ha]; omega
        · rw [hdoc a ha]; omega
  · exact ranksMono_const _ 4 hperf
  · intro a ha b hb
    rw [hperf b hb]
    rcases List.mem_append.mp ha with ha | ha
    · rcases List.mem_append.mp ha with ha | ha
      · rw [hsec a ha]; omega
      · rcases List.mem_append.mp ha with ha | ha
        · rw [hqual a ha]; omega
        · rw [hdoc a ha]; omega
    · rw [hbp a ha]; omega

/-- C7: in the performance pass, once any line matches the loop-header
pattern the in-loop flag remains true for all remaining lines — it is
never cleared by a dedent: every line at or after the header containing a
data-access call yields the Database Query in Loop WARNING at its 1-based
line number, and every such line with a compound string-append assignment
yields the String Concat in Loop INFO, even past the textual end of the
loop block. -/
theorem spec_c7_flag_sticky (code : String) (j k : Nat) (x y : String)
    (hjk : j ≤ k)
    (hx : (splitLines code)[j]? = some x)
    (hy : (splitLines code)[k]? = some y)
    (hloop : reSearchStart loopPat x = true) :
    (reSearch dbPat y = true → dbIssue (k + 1) ∈ check_performance_issues code)
    ∧ (reSearch concatPat y = true →
        concatIssue (k + 1) ∈ check_performance_issues code) := by
  obtain ⟨h1, h2⟩ := perfGo_reach (splitLines code) false 1 j k x y hjk hx hy hloop
  have hidx : 1 + k = k + 1 := by omega
  rw [hidx] at h1 h2
  exact ⟨h1, h2⟩

/-- C7 witness: in a text whose loop body ends at line 2, line 3 — after
the dedent — still yields both the Database Query in Loop WARNING and the
String Concat in Loop INFO. -/
theorem spec_c7_flag_sticky_witness :
    dbIssue 3 ∈ check_performance_issues "for i in y:\n    pass\ns += \x22a\x22 + db.get(1)"
    ∧ concatIssue 3
      ∈ check_performance_issues "for i in y:\n    pass\ns += \x22a\x22 + db.get(1)" := by
  have h := spec_c7_flag_sticky "for i in y:\n    pass\ns += \x22a\x22 + db.get(1)"
    0 2 "for i in y:" "s += \x22a\x22 + db.get(1)"
    (by decide) (by decide) (by decide) (by decide)
  exact ⟨h.1 (by decide), h.2 (by decide)⟩

/-- C3 counterexample: appending the single triggering line consisting of a
space and a print call (it triggers the Print Statement rule) to the text
with two docstring-less functions makes ast.parse fail (per the recorded
CPython outcome: unexpected indent), so both Missing Docstring findings
disappear and the score rises from 94 tenths (9.4) to 97 tenths (9.7):
adding one triggering line increased the score and removed previously
detected findings on unmodified lines. -/
theorem spec_c3_counterexample :
    splitLines txtC3new = splitLines txtC3orig ++ [" print("]
    ∧ reSearchStart printPat " print(" = true
    ∧ (analyze astParse txtC3orig "t.py").quality_score
        < (analyze astParse txtC3new "t.py").quality_score
    ∧ docIssue "f" 1 ∈ (analyze astParse txtC3orig "t.py").issues
    ∧ ((analyze astParse txtC3new "t.py").issues.all
        (fun g => !(g.issue_type == "Missing Docstring"))) = true := by decide

/-- C3 amended: with the syntax-aware pass excluded (modelled by the
always-failing parser; the counterexample shows the original claim fails
through that pass when the inserted line breaks parsing), inserting any
single line into a text never increases the score, and every finding
previously detected is still detected: findings on lines before the
insertion point keep their rule and line number, findings on lines after
it are re-detected one line further down. -/
theorem spec_c3_amended_monotone (name code code' x : String)
    (ls₁ ls₂ : List String)
    (h : splitLines code = ls₁ ++ ls₂)
    (h' : splitLines code' = ls₁ ++ x :: ls₂) :
    (analyze parseNone code' name).quality_score
      ≤ (analyze parseNone code name).quality_score
    ∧ ∀ g ∈ (analyze parseNone code name).issues,
        (g.line_number ≤ ls₁.length →
          ∃ g', g' ∈ (analyze parseNone code' name).issues
            ∧ g'.issue_type = g.issue_type ∧ g'.line_number = g.line_number)
        ∧ (ls₁.length < g.line_number →
          ∃ g', g' ∈ (analyze parseNone code' name).issues
            ∧ g'.issue_type = g.issue_type ∧ g'.line_number = g.line_number + 1) := by
  have hdocN : docstringIssues parseNone code = [] := rfl
  have hdocN' : docstringIssues parseNone code' = [] := rfl
  have eOld : allIssues parseNone code
      = (lineGo secLine 1 ls₁ ++ lineGo secLine (1 + ls₁.length) ls₂)
        ++ (lineGo qualLine 1 ls₁ ++ lineGo qualLine (1 + ls₁.length) ls₂)
        ++ (lineGo bpLine 1 ls₁ ++ lineGo bpLine (1 + ls₁.length) ls₂)
        ++ (perfGo false 1 ls₁
            ++ perfGo (flagAfter false ls₁) (1 + ls₁.length) ls₂) := by
    unfold allIssues check_security_issues check_code_quality
      check_python_best_practices check_performance_issues
    rw [hdocN, List.append_nil, h, lineGo_append, lineGo_append, lineGo_append,
      perfGo_append]
  have eNew : allIssues parseNone code'
      = (lineGo secLine 1 ls₁
          ++ (secLine (1 + ls₁.length) x ++ lineGo secLine (1 + ls₁.length + 1) ls₂))
        ++ (lineGo qualLine 1 ls₁
          ++ (qualLine (1 + ls₁.length) x ++ lineGo qualLine (1 + ls₁.length + 1) ls₂))
        ++ (lineGo bpLine 1 ls₁
          ++ (bpLine (1 + ls₁.length) x ++ lineGo bpLine (1 + ls₁.length + 1) ls₂))
        ++ (perfGo false 1 ls₁
          ++ (perfLine (1 + ls₁.length)
                (if reSearchStart loopPat x = true then true else flagAfter false ls₁) x
              ++ perfGo
                (if reSearchStart loopPat x = true then true else flagAfter false ls₁)
                (1 + ls₁.length + 1) ls₂)) := by
    unfold allIssues check_security_issues check_code_quality
      check_python_best_practices check_performance_issues
    rw [hdocN', List.append_nil, h', lineGo_append, lineGo_append, lineGo_append,
      perfGo_append]
    simp only [lineGo, perfGo]
  have hBmono : flagAfter false ls₁ = true →
      (if reSearchStart loopPat x = true then true else flagAfter false ls₁) = true := by
    intro hb
    split
    · rfl
    · exact hb
  have wIneq : wsum (allIssues parseNone code) ≤ wsum (allIssues parseNone code') := by
    rw [eOld, eNew]
    simp only [wsum_append]
    have i1 := wsum_lineGo_idx secLine wsum_secLine_idx ls₂ (1 + ls₁.length)
      (1 + ls₁.length + 1)
    have i2 := wsum_lineGo_idx qualLine wsum_qualLine_idx ls₂ (1 + ls₁.length)
      (1 + ls₁.length + 1)
    have i3 := wsum_lineGo_idx bpLine wsum_bpLine_idx ls₂ (1 + ls₁.length)
      (1 + ls₁.length + 1)
    have m4a := wsum_perfGo_mono ls₂ (1 + ls₁.length) hBmono
    have m4b := wsum_perfGo_idx ls₂
      (if reSearchStart loopPat x = true then true else flagAfter false ls₁)
      (1 + ls₁.length) (1 + ls₁.length + 1)
    have n1 := wsum_nonneg (secLine (1 + ls₁.length) x)
    have n2 := wsum_nonneg (qualLine (1 + ls₁.length) x)
    have n3 := wsum_nonneg (bpLine (1 + ls₁.length) x)
    have n4 := wsum_nonneg (perfLine (1 + ls₁.length)
      (if reSearchStart loopPat x = true then true else flagAfter false ls₁) x)
    omega
  constructor
  · show calculate_score (allIssues parseNone code')
      ≤ calculate_score (allIssues parseNone code)
    rw [calculate_score_eq, calculate_score_eq]
    exact max_le_max (le_refl 0) (by omega)
  · intro g hg
    have inj : ∀ g', g' ∈ allIssues parseNone code'
        → g' ∈ (analyze parseNone code' name).issues := fun g' hh => hh
    have hg' : g ∈ allIssues parseNone code := hg
    rw [eOld] at hg'
    rcases List.mem_append.mp hg' with h1 | hP
    · rcases List.mem_append.mp h1 with h2 | hB
      · rcases List.mem_append.mp h2 with hS | hQ
        · rcases List.mem_append.mp hS with hpre | hsuf
          · have hb := lineGo_bounds secLine (fun i l g hh => secLine_at hh) ls₁ 1 g hpre
            constructor
            · intro _
              refine ⟨g, inj g ?_, rfl, rfl⟩
              rw [eNew]
              exact List.mem_append.mpr (Or.inl (List.mem_append.mpr (Or.inl
                (List.mem_append.mpr (Or.inl (List.mem_append.mpr (Or.inl hpre)))))))
            · intro hgt
              exact absurd hgt (by omega)
          · have hb := lineGo_bounds secLine (fun i l g hh => secLine_at hh) ls₂
              (1 + ls₁.length) g hsuf
            constructor
            · intro hle
              exact absurd hle (by omega)
            · intro _
              obtain ⟨g', hm, ht, hl⟩ := lineGo_shift secLine
                (fun i j l g hh => secLine_shift j hh) (fun i l g hh => secLine_at hh)
                ls₂ (1 + ls₁.length) g hsuf
              refine ⟨g', inj g' ?_, ht, hl⟩
              rw [eNew]
              exact List.mem_append.mpr (Or.inl (List.mem_append.mpr (Or.inl
                (List.mem_append.mpr (Or.inl (List.mem_append.mpr (Or.inr
                  (List.mem_append.mpr (Or.inr hm)))))))))
        · rcases List.mem_append.mp hQ with hpre | hsuf
          · have hb := lineGo_bounds qualLine (fun i l g hh => qualLine_at hh) ls₁ 1 g hpre
            constructor
            · intro _
              refine ⟨g, inj g ?_, rfl, rfl⟩
              rw [eNew]
              exact List.mem_append.mpr (Or.inl (List.mem_append.mpr (Or.inl
                (List.mem_append.mpr (Or.inr (List.mem_append.mpr (Or.inl hpre)))))))
            · intro hgt
              exact absurd hgt (by omega)
          · have hb := lineGo_bounds qualLine (fun i l g hh => qualLine_at hh) ls₂
              (1 + ls₁.length) g hsuf
            constructor
            · intro hle
              exact absurd hle (by omega)
            · intro _
              obtain ⟨g', hm, ht, hl⟩ := lineGo_shift qualLine
                (fun i j l g hh => qualLine_shift j hh) (fun i l g hh => qualLine_at hh)
                ls₂ (1 + ls₁.length) g hsuf
              refine ⟨g', inj g' ?_, ht, hl⟩
              rw [eNew]
              exact List.mem_append.mpr (Or.inl (List.mem_append.mpr (Or.inl
                (List.mem_append.mpr (Or.inr (List.mem_append.mpr (Or.inr
                  (List.mem_append.mpr (Or.inr hm)))))))))
      · rcases List.mem_append.mp hB with hpre | hsuf
        · have hb := lineGo_bounds bpLine (fun i l g hh => bpLine_at hh) ls₁ 1 g hpre
          constructor
          · intro _
            refine ⟨g, inj g ?_, rfl, rfl⟩
            rw [eNew]
            exact List.mem_append.mpr (Or.inl (List.mem_append.mpr (Or.inr
              (List.mem_append.mpr (Or.inl hpre)))))
          · intro hgt
            exact absurd hgt (by omega)
        · have hb := lineGo_bounds bpLine (fun i l g hh => bpLine_at hh) ls₂
            (1 + ls₁.length) g hsuf
          constructor
          · intro hle
            exact absurd hle (by omega)
          · intro _
            obtain ⟨g', hm, ht, hl⟩ := lineGo_shift bpLine
              (fun i j l g hh => bpLine_shift j hh) (fun i l g hh => bpLine_at hh)
              ls₂ (1 + ls₁.length) g hsuf
            refine ⟨g', inj g' ?_, ht, hl⟩
            rw [eNew]
            exact List.mem_append.mpr (Or.inl (List.mem_append.mpr (Or.inr
              (List.mem_append.mpr (Or.inr (List.mem_append.mpr (Or.inr hm)))))))
    · rcases List.mem_append.mp hP with hpre | hsuf
      · have hb := perfGo_bounds ls₁ false 1 g hpre
        constructor
        · intro _
          refine ⟨g, inj g ?_, rfl, rfl⟩
          rw [eNew]
          exact List.mem_append.mpr (Or.inr (List.mem_append.mpr (Or.inl hpre)))
        · intro hgt
          exact absurd hgt (by omega)
      · have hb := perfGo_bounds ls₂ (flagAfter false ls₁) (1 + ls₁.length) g hsuf
        constructor
        · intro hle
          exact absurd hle (by omega)
        · intro _
          obtain ⟨g', hm, ht, hl⟩ := perfGo_shift ls₂ (1 + ls₁.length) g hBmono hsuf
          refine ⟨g', inj g' ?_, ht, hl⟩
          rw [eNew]
          exact List.mem_append.mpr (Or.inr (List.mem_append.mpr (Or.inr
            (List.mem_append.mpr (Or.inr hm)))))

/-- C3 amended witness: inserting the triggering marker-comment line
between the two lines of a concrete text lowers the score and keeps the
eval finding detected one line further down. -/
theorem spec_c3_amended_monotone_witness :
    splitLines "a = 1\nb = eval(c)" = ["a = 1"] ++ ["b = eval(c)"]
    ∧ splitLines "a = 1\n# TODO fix\nb = eval(c)"
        = ["a = 1"] ++ "# TODO fix" :: ["b = eval(c)"]
    ∧ ((analyze parseNone "a = 1\n# TODO fix\nb = eval(c)" "t.py").quality_score
        ≤ (analyze parseNone "a = 1\nb = eval(c)" "t.py").quality_score
      ∧ ∀ g ∈ (analyze parseNone "a = 1\nb = eval(c)" "t.py").issues,
          (g.line_number ≤ (["a = 1"] : List String).length →
            ∃ g', g' ∈ (analyze parseNone "a = 1\n# TODO fix\nb = eval(c)" "t.py").issues
              ∧ g'.issue_type = g.issue_type ∧ g'.line_number = g.line_number)
          ∧ ((["a = 1"] : List String).length < g.line_number →
            ∃ g', g' ∈ (analyze parseNone "a = 1\n# TODO fix\nb = eval(c)" "t.py").issues
              ∧ g'.issue_type = g.issue_type ∧ g'.line_number = g.line_number + 1)) :=
  ⟨by decide, by decide,
    spec_c3_amended_monotone "t.py" "a = 1\nb = eval(c)" "a = 1\n# TODO fix\nb = eval(c)"
      "# TODO fix" ["a = 1"] ["b = eval(c)"] (by decide) (by decide)⟩
